import Mathlib

/-!
Verification of the study-notes backend (`src/main.py`, `src/schemas.py`)
against its design specification.

Python strings are modelled as `List Char`; the string helpers used by the
code (`str.replace`, `str.split`, `str.strip`, `str.join`, slicing) are
embedded as executable Lean functions with Python's semantics.  The request
handlers are embedded as pure state-passing functions over an explicit store.
-/

namespace StudyToolkit

/-! ### Python string primitives -/

/-- The ASCII whitespace characters stripped by Python's `str.strip()`. -/
def isPySpace (c : Char) : Bool :=
  c == ' ' || c == '\t' || c == '\n' || c == '\r' || c.toNat == 11 || c.toNat == 12

/-- One character of `text.replace("\n", " ")`. -/
def replNL (c : Char) : Char :=
  if c = '\n' then ' ' else c

/-- `text.replace("\n", " ")`: every newline becomes a single space. -/
def normalize (l : List Char) : List Char :=
  l.map replNL

/-- Python's `str.split(sep)` for a one-character separator: splits at every
occurrence of `sep`, keeping empty pieces, so the result is always nonempty. -/
def pySplitOn (sep : Char) : List Char → List (List Char)
  | [] => [[]]
  | c :: rest =>
    if c = sep then
      [] :: pySplitOn sep rest
    else
      match pySplitOn sep rest with
      | [] => [[c]]
      | x :: xs => (c :: x) :: xs

/-- Python's `str.strip()`: drop leading and trailing whitespace. -/
def pyStrip (l : List Char) : List Char :=
  (((l.dropWhile isPySpace).reverse).dropWhile isPySpace).reverse

/-- Python's `sep.join(pieces)`. -/
def pyJoin (sep : List Char) : List (List Char) → List Char
  | [] => []
  | [x] => x
  | x :: y :: xs => x ++ sep ++ pyJoin sep (y :: xs)

/-! ### The summarizer (`simple_summarize`, src/main.py lines 121-127) -/

/-- The literal fallback text of `simple_summarize`. -/
def defaultSummary : List Char := "No content to summarize.".toList

/-- The list comprehension of `simple_summarize`:
`[s.strip() for s in text.replace("\n", " ").split(".") if s.strip()]`. -/
def sentencesOf (text : List Char) : List (List Char) :=
  ((pySplitOn '.' (normalize text)).map pyStrip).filter (fun s => s ≠ [])

/-- `simple_summarize` from src/main.py: split into trimmed period-separated
fragments, and rejoin the first five with `". "`, appending a final period
exactly when the selection is nonempty (Python `"." if selected else ""`). -/
def simple_summarize (text : List Char) : List Char :=
  let sentences := sentencesOf text
  if sentences = [] then defaultSummary
  else
    let selected := sentences.take 5
    pyJoin ['.', ' '] selected ++ (if selected = [] then [] else ['.'])

/-- The summarizer as the specification words it (§4.3 steps 1-5): normalize
newlines, split on periods, trim and discard empties, fall back to the
literal message, otherwise join the first five fragments with `". "` and
append a trailing period unconditionally. -/
def summarize_described (text : List Char) : List Char :=
  let fragments :=
    ((pySplitOn '.' (normalize text)).map pyStrip).filter (fun s => s ≠ [])
  if fragments = [] then defaultSummary
  else pyJoin ['.', ' '] (fragments.take 5) ++ ['.']

example : simple_summarize "A. B. C.".toList = "A. B. C.".toList := by decide

example : simple_summarize "hello world".toList = "hello world.".toList := by decide

example : simple_summarize "   ".toList = defaultSummary := by decide

example :
    simple_summarize "a. b. c. d. e. f. g.".toList = "a. b. c. d. e".toList ++ ['.'] := by
  decide

/-! ### Record schemas (src/schemas.py) -/

/-- `Note` (src/schemas.py): required `title` and `content`, optional `topic`. -/
structure Note where
  title : String
  content : String
  topic : Option String
deriving DecidableEq

/-- `Flashcard` (src/schemas.py): required `front` and `back`, optional `tag`. -/
structure Flashcard where
  front : String
  back : String
  tag : Option String
deriving DecidableEq

/-- `Question` (src/schemas.py): required `question`, `options` with
`min_items=2`, `answer_index` with `ge=0`, optional `tag`. -/
structure Question where
  question : String
  options : List String
  answer_index : Int
  tag : Option String
deriving DecidableEq

/-- `Summary` (src/schemas.py): file name, stored raw text, derived summary.
Text fields are kept as character lists because the summarizer works on them. -/
structure Summary where
  file_name : List Char
  text : List Char
  summary : List Char
deriving DecidableEq

/-- Pydantic validation of a `Note` body: each `Option` is a field's presence
in the request body.  The required fields must be present; no constraint is
placed on their values (`str` fields carry no `min_length`). -/
def Note.validate (title content topic : Option String) : Option Note :=
  match title, content with
  | some t, some c => some ⟨t, c, topic⟩
  | _, _ => none

/-- Pydantic validation of a `Flashcard` body: `front` and `back` must be
present; values are unconstrained. -/
def Flashcard.validate (front back tag : Option String) : Option Flashcard :=
  match front, back with
  | some f, some b => some ⟨f, b, tag⟩
  | _, _ => none

/-- Pydantic validation of a `Question` body: all required fields present,
`options` has at least 2 items, `answer_index` is at least 0.  No cross-field
check relates `answer_index` to `options.length`. -/
def Question.validate (question : Option String) (options : Option (List String))
    (answer_index : Option Int) (tag : Option String) : Option Question :=
  match question, options, answer_index with
  | some q, some os, some ai =>
    if 2 ≤ os.length ∧ 0 ≤ ai then some ⟨q, os, ai, tag⟩ else none
  | _, _, _ => none

/-! ### Document store adapter (database.py, not under src/) -/

/-- Modelled from the spec: `insert(collectionName, record) -> id` of the
Document Store Adapter (§4.1, in `database.py`, which is not under src/):
it appends one document to the named collection and returns the newly
assigned identifier rendered as text. -/
def create_document {α : Type} (store : List α) (record : α) : List α × String :=
  (store ++ [record], toString store.length)

/-- Modelled from the spec: `query(collectionName, filter, limit)` of the
Document Store Adapter (§4.1, in `database.py`, which is not under src/):
an empty filter matches all documents; a document matches a nonempty filter
when every named field holds the expected value; with a limit, at most that
many documents are returned, in store order. -/
def get_documents {α : Type} (getField : α → String → Option String)
    (store : List α) (filt : List (String × String)) (lim : Option Nat) : List α :=
  let res := store.filter (fun d => filt.all (fun p => getField d p.1 == some p.2))
  match lim with
  | none => res
  | some k => res.take k

/-- Field lookup on a stored note document, for query filters. -/
def Note.getField (n : Note) (f : String) : Option String :=
  if f = "title" then some n.title
  else if f = "content" then some n.content
  else if f = "topic" then n.topic
  else none

/-- Field lookup on a stored flashcard document, for query filters. -/
def Flashcard.getField (c : Flashcard) (f : String) : Option String :=
  if f = "front" then some c.front
  else if f = "back" then some c.back
  else if f = "tag" then c.tag
  else none

/-- Field lookup on a stored question document, for query filters. -/
def Question.getField (q : Question) (f : String) : Option String :=
  if f = "question" then some q.question
  else if f = "tag" then q.tag
  else none

/-! ### HTTP endpoint layer (src/main.py) -/

/-- An HTTP response: either a success payload or an error status with a
textual `detail` field, as raised by `HTTPException(status_code, detail)`. -/
inductive Response (α : Type) where
  | ok (body : α)
  | httpError (status : Nat) (detail : String)
deriving DecidableEq

/-- The `try/except Exception as e: raise HTTPException(status_code=500,
detail=str(e))` boundary shared by every handler in src/main.py: the body is
run once; a success is rendered, any failure becomes a 500 response whose
detail is the failure's textual description. -/
def endpointBoundary {α β : Type} (render : β → Response α)
    (body : Except String β) : Response α :=
  match body with
  | .ok b => render b
  | .error e => .httpError 500 e

/-- `POST /api/notes` (`create_note`): FastAPI validates the body against the
`Note` schema before the handler runs (a failure is a 422 and the handler
body is never executed); on success the handler inserts and returns the id. -/
def create_note_endpoint (store : List Note) (title content topic : Option String) :
    List Note × Response String :=
  match Note.validate title content topic with
  | none => (store, .httpError 422 "validation error")
  | some n =>
    let r := create_document store n
    (r.1, .ok r.2)

/-- `POST /api/flashcards` (`create_flashcard`), analogously. -/
def create_flashcard_endpoint (store : List Flashcard) (front back tag : Option String) :
    List Flashcard × Response String :=
  match Flashcard.validate front back tag with
  | none => (store, .httpError 422 "validation error")
  | some c =>
    let r := create_document store c
    (r.1, .ok r.2)

/-- `POST /api/questions` (`create_question`), analogously. -/
def create_question_endpoint (store : List Question) (question : Option String)
    (options : Option (List String)) (answer_index : Option Int) (tag : Option String) :
    List Question × Response String :=
  match Question.validate question options answer_index tag with
  | none => (store, .httpError 422 "validation error")
  | some q =>
    let r := create_document store q
    (r.1, .ok r.2)

/-- `GET /api/notes` (`list_notes`): `filter_dict = {"topic": topic} if topic
else {}` — a `None` or empty-string topic (both falsy in Python) yields the
empty filter. -/
def list_notes (store : List Note) (topic : Option String) : List Note :=
  let filter_dict : List (String × String) :=
    match topic with
    | some t => if t ≠ "" then [("topic", t)] else []
    | none => []
  get_documents Note.getField store filter_dict none

/-- `GET /api/flashcards` (`list_flashcards`), filtering by `tag`. -/
def list_flashcards (store : List Flashcard) (tag : Option String) : List Flashcard :=
  let filter_dict : List (String × String) :=
    match tag with
    | some t => if t ≠ "" then [("tag", t)] else []
    | none => []
  get_documents Flashcard.getField store filter_dict none

/-- `GET /api/questions` (`list_questions`), filtering by `tag`. -/
def list_questions (store : List Question) (tag : Option String) : List Question :=
  let filter_dict : List (String × String) :=
    match tag with
    | some t => if t ≠ "" then [("tag", t)] else []
    | none => []
  get_documents Question.getField store filter_dict none

/-- The placeholder stored for an upload whose decoded text is empty or
whitespace-only (src/main.py line 98). -/
def placeholderText : List Char :=
  "(Binary file uploaded; text extraction not available in demo)".toList

/-- `if not text or len(text.strip()) == 0: text = placeholder`. -/
def substitute (text : List Char) : List Char :=
  if text = [] ∨ pyStrip text = [] then placeholderText else text

/-- `POST /api/summarize` (`summarize_file`) from the already-decoded text
onward: substitute the placeholder when empty/whitespace-only, summarize the
full text, persist `Summary(file_name, text[:10000], summary)`, and answer
with the id and summary. -/
def summarize_file (store : List Summary) (fname : List Char) (decoded : List Char) :
    List Summary × Response (String × List Char) :=
  let text := substitute decoded
  let summ := simple_summarize text
  let data : Summary := ⟨fname, text.take 10000, summ⟩
  let r := create_document store data
  (r.1, .ok (r.2, summ))

/-! ### Lemmas about the string primitives -/

/-- Unfolding equation for the spec-described summarizer. -/
theorem summarize_described_eq (t : List Char) :
    summarize_described t =
      if sentencesOf t = [] then defaultSummary
      else pyJoin ['.', ' '] ((sentencesOf t).take 5) ++ ['.'] := rfl

/-- Unfolding equation for `simple_summarize`. -/
theorem simple_summarize_eq (t : List Char) :
    simple_summarize t =
      if sentencesOf t = [] then defaultSummary
      else
        pyJoin ['.', ' '] ((sentencesOf t).take 5) ++
          (if (sentencesOf t).take 5 = [] then [] else ['.']) := rfl

/-- `dropWhile` never lengthens a list. -/
theorem length_dropWhile_le_self {α : Type} {p : α → Bool} :
    ∀ l : List α, (l.dropWhile p).length ≤ l.length := by
  intro l
  induction l with
  | nil => exact Nat.le_refl _
  | cons c t ih =>
    by_cases h : p c = true
    · rw [List.dropWhile_cons_of_pos h]
      exact Nat.le_trans ih (Nat.le_succ _)
    · rw [List.dropWhile_cons_of_neg h]

/-- `dropWhile` is idempotent. -/
theorem dropWhile_idem {α : Type} {p : α → Bool} :
    ∀ l : List α, (l.dropWhile p).dropWhile p = l.dropWhile p := by
  intro l
  induction l with
  | nil => rfl
  | cons c t ih =>
    by_cases h : p c = true
    · rw [List.dropWhile_cons_of_pos h]
      exact ih
    · rw [List.dropWhile_cons_of_neg h, List.dropWhile_cons_of_neg h]

/-- A list no element of which satisfies `p` is untouched by `dropWhile`. -/
theorem dropWhile_eq_self_of_all {α : Type} {p : α → Bool} :
    ∀ l : List α, (∀ c ∈ l, p c = false) → l.dropWhile p = l := by
  intro l h
  cases l with
  | nil => rfl
  | cons c t =>
    have hc : ¬ p c = true := by
      rw [h c (List.mem_cons_self c t)]
      exact Bool.false_ne_true
    rw [List.dropWhile_cons_of_neg hc]

/-- If an appended list survives `dropWhile`, so does its left part. -/
theorem dropWhile_eq_self_of_append {α : Type} {p : α → Bool} {a b : List α}
    (h : (a ++ b).dropWhile p = a ++ b) : a.dropWhile p = a := by
  cases a with
  | nil => rfl
  | cons c a' =>
    rw [List.cons_append] at h
    by_cases hc : p c = true
    · exfalso
      rw [List.dropWhile_cons_of_pos hc] at h
      have h1 := length_dropWhile_le_self (p := p) (a' ++ b)
      have h2 := congrArg List.length h
      simp only [List.length_cons, List.length_append] at h1 h2
      omega
    · rw [List.dropWhile_cons_of_neg hc]

/-- Elements survive `dropWhile` only from the original list. -/
theorem mem_of_mem_dropWhile {α : Type} {p : α → Bool} {l : List α} {c : α}
    (h : c ∈ l.dropWhile p) : c ∈ l := by
  have hd : l.takeWhile p ++ l.dropWhile p = l := List.takeWhile_append_dropWhile p l
  rw [← hd]
  exact List.mem_append_right _ h

/-- A whitespace-free list is untouched by `pyStrip`. -/
theorem pyStrip_eq_self_of_all {l : List Char} (h : ∀ c ∈ l, isPySpace c = false) :
    pyStrip l = l := by
  unfold pyStrip
  rw [dropWhile_eq_self_of_all l h,
    dropWhile_eq_self_of_all l.reverse (fun c hc => h c (List.mem_reverse.mp hc)),
    List.reverse_reverse]

/-- `pyStrip` only keeps characters of the original list. -/
theorem mem_of_mem_pyStrip {l : List Char} {c : Char} (h : c ∈ pyStrip l) : c ∈ l := by
  unfold pyStrip at h
  rw [List.mem_reverse] at h
  have h1 := mem_of_mem_dropWhile h
  rw [List.mem_reverse] at h1
  exact mem_of_mem_dropWhile h1

/-- A newline-free list is untouched by `normalize`. -/
theorem normalize_eq_self_of_not_mem {l : List Char} (h : '\n' ∉ l) :
    normalize l = l := by
  induction l with
  | nil => rfl
  | cons c t ih =>
    have hc : c ≠ '\n' := fun e => h (e ▸ List.mem_cons_self c t)
    have ht : '\n' ∉ t := fun m => h (List.mem_cons_of_mem _ m)
    show replNL c :: normalize t = c :: t
    rw [ih ht]
    unfold replNL
    rw [if_neg hc]

/-- Splitting a list that does not contain the separator yields the list
itself as the only piece. -/
theorem pySplitOn_of_not_mem {sep : Char} {l : List Char} (h : sep ∉ l) :
    pySplitOn sep l = [l] := by
  induction l with
  | nil => rfl
  | cons c rest ih =>
    have hc : ¬ c = sep := fun e => h (e ▸ List.mem_cons_self c rest)
    have hr : sep ∉ rest := fun m => h (List.mem_cons_of_mem _ m)
    simp [pySplitOn, hc, ih hr]

/-- `pySplitOn` always yields at least one piece. -/
theorem pySplitOn_ne_nil (sep : Char) : ∀ l : List Char, pySplitOn sep l ≠ [] := by
  intro l
  induction l with
  | nil => simp [pySplitOn]
  | cons c rest ih =>
    by_cases hc : c = sep
    · simp [pySplitOn, hc]
    · cases hs : pySplitOn sep rest with
      | nil => exact absurd hs ih
      | cons x xs => simp [pySplitOn, hc, hs]

/-- No piece produced by `pySplitOn` contains the separator. -/
theorem not_sep_mem_of_mem_pySplitOn {sep : Char} :
    ∀ {l f : List Char}, f ∈ pySplitOn sep l → sep ∉ f := by
  intro l
  induction l with
  | nil =>
    intro f hf
    simp [pySplitOn] at hf
    rw [hf]
    exact List.not_mem_nil sep
  | cons c rest ih =>
    intro f hf
    by_cases hc : c = sep
    · rw [show pySplitOn sep (c :: rest) = [] :: pySplitOn sep rest from by
        simp [pySplitOn, hc]] at hf
      rcases List.mem_cons.mp hf with h | h
      · rw [h]
        exact List.not_mem_nil sep
      · exact ih h
    · cases hs : pySplitOn sep rest with
      | nil => exact absurd hs (pySplitOn_ne_nil sep rest)
      | cons x xs =>
        rw [show pySplitOn sep (c :: rest) = (c :: x) :: xs from by
          simp [pySplitOn, hc, hs]] at hf
        rcases List.mem_cons.mp hf with h | h
        · rw [h]
          intro hm
          rcases List.mem_cons.mp hm with h1 | h1
          · exact hc h1.symm
          · exact ih (by rw [hs]; exact List.mem_cons_self x xs) h1
        · exact ih (by rw [hs]; exact List.mem_cons_of_mem x h)

/-- Every character of a `pySplitOn` piece comes from the split list. -/
theorem mem_orig_of_mem_pySplitOn {sep : Char} :
    ∀ {l f : List Char}, f ∈ pySplitOn sep l → ∀ {c : Char}, c ∈ f → c ∈ l := by
  intro l
  induction l with
  | nil =>
    intro f hf c hc
    simp [pySplitOn] at hf
    rw [hf] at hc
    exact absurd hc (List.not_mem_nil c)
  | cons c0 rest ih =>
    intro f hf c hc
    by_cases h0 : c0 = sep
    · rw [show pySplitOn sep (c0 :: rest) = [] :: pySplitOn sep rest from by
        simp [pySplitOn, h0]] at hf
      rcases List.mem_cons.mp hf with h | h
      · rw [h] at hc
        exact absurd hc (List.not_mem_nil c)
      · exact List.mem_cons_of_mem _ (ih h hc)
    · cases hs : pySplitOn sep rest with
      | nil => exact absurd hs (pySplitOn_ne_nil sep rest)
      | cons x xs =>
        rw [show pySplitOn sep (c0 :: rest) = (c0 :: x) :: xs from by
          simp [pySplitOn, h0, hs]] at hf
        rcases List.mem_cons.mp hf with h | h
        · rw [h] at hc
          rcases List.mem_cons.mp hc with h1 | h1
          · rw [h1]
            exact List.mem_cons_self _ _
          · exact List.mem_cons_of_mem _
              (ih (by rw [hs]; exact List.mem_cons_self x xs) h1)
        · exact List.mem_cons_of_mem _
            (ih (by rw [hs]; exact List.mem_cons_of_mem x h) hc)

/-- `dropWhile` is `pyStrip` followed by the stripped trailing whitespace. -/
theorem pyStrip_decomp (l : List Char) :
    l.dropWhile isPySpace =
      pyStrip l ++ ((l.dropWhile isPySpace).reverse.takeWhile isPySpace).reverse := by
  unfold pyStrip
  rw [← List.reverse_append, List.takeWhile_append_dropWhile, List.reverse_reverse]

/-- A stripped list has no leading whitespace. -/
theorem dropWhile_pyStrip (l : List Char) :
    (pyStrip l).dropWhile isPySpace = pyStrip l := by
  have hx : (l.dropWhile isPySpace).dropWhile isPySpace = l.dropWhile isPySpace :=
    dropWhile_idem l
  rw [pyStrip_decomp l] at hx
  exact dropWhile_eq_self_of_append hx

/-- A stripped list has no trailing whitespace. -/
theorem dropWhile_reverse_pyStrip (l : List Char) :
    (pyStrip l).reverse.dropWhile isPySpace = (pyStrip l).reverse := by
  unfold pyStrip
  rw [List.reverse_reverse]
  exact dropWhile_idem _

/-- `pyStrip` is idempotent. -/
theorem pyStrip_idem (l : List Char) : pyStrip (pyStrip l) = pyStrip l := by
  show (((pyStrip l).dropWhile isPySpace).reverse.dropWhile isPySpace).reverse = pyStrip l
  rw [dropWhile_pyStrip, dropWhile_reverse_pyStrip, List.reverse_reverse]

/-- A leading space disappears under `pyStrip`. -/
theorem pyStrip_cons_space (l : List Char) : pyStrip (' ' :: l) = pyStrip l := by
  unfold pyStrip
  rw [List.dropWhile_cons_of_pos (by decide : isPySpace ' ' = true)]

/-- Prepending a non-separator extends the first piece of a split. -/
theorem pySplitOn_cons_ne {sep c : Char} {l : List Char} (hc : ¬ c = sep)
    {x : List Char} {xs : List (List Char)} (hs : pySplitOn sep l = x :: xs) :
    pySplitOn sep (c :: l) = (c :: x) :: xs := by
  simp [pySplitOn, hc, hs]

/-- Splitting a separator-free prefix followed by a separator peels it off. -/
theorem pySplitOn_append_sep {sep : Char} :
    ∀ {a : List Char}, sep ∉ a → ∀ b : List Char,
      pySplitOn sep (a ++ sep :: b) = a :: pySplitOn sep b := by
  intro a
  induction a with
  | nil =>
    intro _ b
    simp [pySplitOn]
  | cons c a' ih =>
    intro h b
    have hc : ¬ c = sep := fun e => h (by rw [e]; exact List.mem_cons_self _ _)
    have ha' : sep ∉ a' := fun m => h (List.mem_cons_of_mem _ m)
    cases hs : pySplitOn sep (a' ++ sep :: b) with
    | nil => exact absurd hs (pySplitOn_ne_nil sep _)
    | cons x xs =>
      rw [List.cons_append, pySplitOn_cons_ne hc hs]
      rw [ih ha' b] at hs
      rw [(List.cons_eq_cons.mp hs).1, (List.cons_eq_cons.mp hs).2]

/-- Unfolding `pyJoin` on two or more pieces. -/
theorem pyJoin_cons_cons (sep f1 f2 : List Char) (F : List (List Char)) :
    pyJoin sep (f1 :: f2 :: F) = f1 ++ sep ++ pyJoin sep (f2 :: F) := rfl

/-- Every character of a join is a separator character or a piece character. -/
theorem mem_sep_or_frag_of_mem_pyJoin {sep : List Char} :
    ∀ {F : List (List Char)} {c : Char}, c ∈ pyJoin sep F →
      c ∈ sep ∨ ∃ f ∈ F, c ∈ f := by
  intro F
  induction F with
  | nil =>
    intro c h
    simp [pyJoin] at h
  | cons f1 F' ih =>
    intro c h
    cases F' with
    | nil =>
      right
      exact ⟨f1, List.mem_cons_self _ _, by simpa [pyJoin] using h⟩
    | cons f2 F'' =>
      rw [pyJoin_cons_cons] at h
      rcases List.mem_append.mp h with h1 | h2
      · rcases List.mem_append.mp h1 with ha | hb
        · right
          exact ⟨f1, List.mem_cons_self _ _, ha⟩
        · left
          exact hb
      · rcases ih h2 with hs | ⟨f, hf, hcf⟩
        · left
          exact hs
        · right
          exact ⟨f, List.mem_cons_of_mem _ hf, hcf⟩

/-- The summarizer on a nonempty text with no period, no newline and no
whitespace: the whole text comes back with a trailing period. -/
theorem simple_summarize_of_plain {l : List Char} (hne : l ≠ [])
    (hdot : '.' ∉ l) (hnl : '\n' ∉ l) (hsp : ∀ c ∈ l, isPySpace c = false) :
    simple_summarize l = l ++ ['.'] := by
  have hn : normalize l = l := normalize_eq_self_of_not_mem hnl
  have hsent : sentencesOf l = [l] := by
    unfold sentencesOf
    rw [hn, pySplitOn_of_not_mem hdot, List.map_cons, List.map_nil,
      pyStrip_eq_self_of_all hsp]
    simp [List.filter_cons, hne]
  rw [simple_summarize_eq, hsent]
  simp [pyJoin]

/-- Splitting the period-joined, period-terminated form of period-free
pieces recovers the pieces: the first verbatim, the rest with the leading
space of the `". "` separator, and a final empty piece from the trailing
period. -/
theorem pySplitOn_pyJoin :
    ∀ (F : List (List Char)) (f1 : List Char), (∀ f ∈ f1 :: F, '.' ∉ f) →
      pySplitOn '.' (pyJoin ['.', ' '] (f1 :: F) ++ ['.']) =
        f1 :: (F.map (fun f => ' ' :: f) ++ [[]]) := by
  intro F
  induction F with
  | nil =>
    intro f1 h
    have h1 : '.' ∉ f1 := h f1 (List.mem_cons_self _ _)
    show pySplitOn '.' (f1 ++ '.' :: []) = f1 :: [[]]
    rw [pySplitOn_append_sep h1]
    rfl
  | cons f2 F' ih =>
    intro f1 h
    have h1 : '.' ∉ f1 := h f1 (List.mem_cons_self _ _)
    have h2 : ∀ f ∈ f2 :: F', '.' ∉ f := fun f hf => h f (List.mem_cons_of_mem _ hf)
    have key := ih f2 h2
    have hpre : pyJoin ['.', ' '] (f1 :: f2 :: F') ++ ['.'] =
        f1 ++ '.' :: (' ' :: (pyJoin ['.', ' '] (f2 :: F') ++ ['.'])) := by
      rw [pyJoin_cons_cons]
      simp [List.append_assoc]
    rw [hpre, pySplitOn_append_sep h1,
      pySplitOn_cons_ne (by decide : ¬ (' ' = '.')) key]
    rfl

/-- Stripping pieces that each carry one leading space and are otherwise
already stripped gives the pieces back. -/
theorem map_pyStrip_map_space :
    ∀ F : List (List Char), (∀ f ∈ F, pyStrip f = f) →
      (F.map (fun f => ' ' :: f)).map pyStrip = F := by
  intro F
  induction F with
  | nil =>
    intro _
    rfl
  | cons f F' ih =>
    intro h
    rw [List.map_cons, List.map_cons, pyStrip_cons_space,
      h f (List.mem_cons_self _ _), ih (fun g hg => h g (List.mem_cons_of_mem _ hg))]

/-- Filtering out empty pieces from a list of nonempty pieces changes
nothing. -/
theorem filter_ne_nil_of_all :
    ∀ F : List (List Char), (∀ f ∈ F, f ≠ []) →
      F.filter (fun s => s ≠ []) = F := by
  intro F
  induction F with
  | nil =>
    intro _
    rfl
  | cons f F' ih =>
    intro h
    rw [List.filter_cons, if_pos (decide_eq_true (h f (List.mem_cons_self _ _))),
      ih (fun g hg => h g (List.mem_cons_of_mem _ hg))]

/-- The sentence extraction of the summarizer, applied to the summarizer's
own join of nonempty, period-free, newline-free, stripped fragments,
recovers exactly those fragments. -/
theorem sentencesOf_pyJoin (F : List (List Char)) (hne : F ≠ [])
    (hgood : ∀ f ∈ F, f ≠ [] ∧ '.' ∉ f ∧ '\n' ∉ f ∧ pyStrip f = f) :
    sentencesOf (pyJoin ['.', ' '] F ++ ['.']) = F := by
  cases F with
  | nil => exact absurd rfl hne
  | cons f1 F' =>
    have hnl : '\n' ∉ pyJoin ['.', ' '] (f1 :: F') ++ ['.'] := by
      intro hm
      rcases List.mem_append.mp hm with h | h
      · rcases mem_sep_or_frag_of_mem_pyJoin h with hs | ⟨f, hf, hc⟩
        · revert hs
          decide
        · exact (hgood f hf).2.2.1 hc
      · revert h
        decide
    unfold sentencesOf
    rw [normalize_eq_self_of_not_mem hnl,
      pySplitOn_pyJoin F' f1 (fun f hf => (hgood f hf).2.1),
      List.map_cons, List.map_append,
      (hgood f1 (List.mem_cons_self _ _)).2.2.2,
      map_pyStrip_map_space F'
        (fun f hf => (hgood f (List.mem_cons_of_mem _ hf)).2.2.2),
      show ([[]] : List (List Char)).map pyStrip = [[]] from rfl,
      List.filter_cons,
      if_pos (decide_eq_true (hgood f1 (List.mem_cons_self _ _)).1),
      List.filter_append,
      filter_ne_nil_of_all F'
        (fun f hf => (hgood f (List.mem_cons_of_mem _ hf)).1)]
    simp

/-- Any join of one to five nonempty, period-free, newline-free, stripped
fragments with `". "`, terminated by a period, is a fixed point of the
summarizer. -/
theorem summarize_fixedpoint_of_good (F : List (List Char)) (hne : F ≠ [])
    (hlen : F.length ≤ 5)
    (hgood : ∀ f ∈ F, f ≠ [] ∧ '.' ∉ f ∧ '\n' ∉ f ∧ pyStrip f = f) :
    simple_summarize (pyJoin ['.', ' '] F ++ ['.']) = pyJoin ['.', ' '] F ++ ['.'] := by
  rw [simple_summarize_eq, sentencesOf_pyJoin F hne hgood, if_neg hne,
    List.take_of_length_le hlen, if_neg hne]

/-- Every fragment the summarizer extracts is nonempty, period-free,
newline-free and already stripped. -/
theorem good_of_mem_sentencesOf {t : List Char} :
    ∀ f ∈ sentencesOf t, f ≠ [] ∧ '.' ∉ f ∧ '\n' ∉ f ∧ pyStrip f = f := by
  intro f hf
  unfold sentencesOf at hf
  have h0 := List.mem_filter.mp hf
  have hne : f ≠ [] := of_decide_eq_true h0.2
  rcases List.mem_map.mp h0.1 with ⟨g, hg, hfg⟩
  refine ⟨hne, ?_, ?_, ?_⟩
  · intro hc
    rw [← hfg] at hc
    exact not_sep_mem_of_mem_pySplitOn hg (mem_of_mem_pyStrip hc)
  · intro hc
    rw [← hfg] at hc
    have h1 := mem_orig_of_mem_pySplitOn hg (mem_of_mem_pyStrip hc)
    rcases List.mem_map.mp h1 with ⟨a, _, ha⟩
    unfold replNL at ha
    by_cases h : a = '\n'
    · rw [if_pos h] at ha
      exact (by decide : (' ' : Char) ≠ '\n') ha
    · rw [if_neg h] at ha
      exact h ha
  · rw [← hfg]
    exact pyStrip_idem g

/-! ### Claim theorems -/

/-- C1: the summarizer, applied to any input text, follows exactly the
spec's steps: replace newlines by spaces, split on the period, trim and
discard empty fragments, fall back to "No content to summarize.", otherwise
join the first five fragments with ". " and append a trailing period. -/
theorem simple_summarize_follows_spec (t : List Char) :
    simple_summarize t = summarize_described t := by
  rw [simple_summarize_eq, summarize_described_eq]
  cases h : sentencesOf t with
  | nil => simp [h]
  | cons a l => simp [h]

/-- C2 counterexample: a Note create request whose title and content are
present but empty strings, and likewise a Flashcard with empty front and
back, pass validation and are persisted — refuting the claim that
validation rejects them. -/
theorem empty_note_flashcard_accepted_cex :
    create_note_endpoint [] (some "") (some "") none =
      ([⟨"", "", none⟩], .ok "0") ∧
    create_flashcard_endpoint [] (some "") (some "") none =
      ([⟨"", "", none⟩], .ok "0") :=
  ⟨rfl, rfl⟩

/-- C2 amended: Note and Flashcard validation checks only the presence of
the required fields; any present values — including empty strings — are
accepted and persisted verbatim, while a missing required field is rejected
and nothing is stored. -/
theorem note_flashcard_presence_only_validation (t c : String) (topic : Option String)
    (store : List Note) (cstore : List Flashcard) :
    (create_note_endpoint store (some t) (some c) topic).1 = store ++ [⟨t, c, topic⟩] ∧
    (create_note_endpoint store none (some c) topic).1 = store ∧
    (create_note_endpoint store (some t) none topic).1 = store ∧
    (create_flashcard_endpoint cstore (some t) (some c) topic).1 = cstore ++ [⟨t, c, topic⟩] ∧
    (create_flashcard_endpoint cstore none (some c) topic).1 = cstore ∧
    (create_flashcard_endpoint cstore (some t) none topic).1 = cstore :=
  ⟨rfl, rfl, rfl, rfl, rfl, rfl⟩

/-- C3: a Question create request whose options list has fewer than 2
entries, or whose answer index is negative, fails validation and leaves the
store unchanged: the record never reaches storage. -/
theorem invalid_question_never_stored (store : List Question)
    (question : Option String) (os : List String) (ai : Int) (tag : Option String)
    (h : os.length < 2 ∨ ai < 0) :
    create_question_endpoint store question (some os) (some ai) tag =
      (store, .httpError 422 "validation error") := by
  have hv : Question.validate question (some os) (some ai) tag = none := by
    cases question with
    | none => rfl
    | some q =>
      simp only [Question.validate, if_neg]
      rw [if_neg]
      rintro ⟨h1, h2⟩
      rcases h with h | h
      · omega
      · omega
  unfold create_question_endpoint
  rw [hv]

/-- Witness for C3 at a concrete request: one option only. -/
theorem invalid_question_never_stored_witness :
    create_question_endpoint [] (some "q") (some ["a"]) (some 0) none =
      ([], .httpError 422 "validation error") :=
  invalid_question_never_stored [] (some "q") ["a"] 0 none (Or.inl (by decide))

/-- C4: an upload whose decoded text is empty or whitespace-only is replaced
by the fixed placeholder; the persisted Summary record's text field is the
placeholder and its summary field is the summarizer applied to the
placeholder, and the response reports that summary. -/
theorem empty_upload_stores_placeholder (store : List Summary)
    (fname decoded : List Char) (h : decoded = [] ∨ pyStrip decoded = []) :
    (summarize_file store fname decoded).1 =
      store ++ [⟨fname, placeholderText, simple_summarize placeholderText⟩] ∧
    (summarize_file store fname decoded).2 =
      .ok (toString store.length, simple_summarize placeholderText) := by
  have hs : substitute decoded = placeholderText := by
    unfold substitute
    rw [if_pos h]
  have hlen : placeholderText.take 10000 = placeholderText :=
    List.take_of_length_le (by decide)
  have base : (summarize_file store fname decoded).1 =
      store ++ [⟨fname, (substitute decoded).take 10000,
                  simple_summarize (substitute decoded)⟩] := rfl
  have base2 : (summarize_file store fname decoded).2 =
      .ok (toString store.length, simple_summarize (substitute decoded)) := rfl
  rw [base, base2, hs, hlen]
  exact ⟨rfl, rfl⟩

/-- Witness for C4 at the empty upload. -/
theorem empty_upload_stores_placeholder_witness :
    (summarize_file [] [] []).1 =
      [⟨[], placeholderText, simple_summarize placeholderText⟩] ∧
    (summarize_file [] [] []).2 =
      .ok (toString (0 : Nat), simple_summarize placeholderText) :=
  empty_upload_stores_placeholder [] [] [] (Or.inl rfl)

/-- C5: for every upload, the text field of the persisted Summary record is
the first 10,000 characters of the (possibly placeholder-substituted)
decoded text, regardless of the original length. -/
theorem stored_text_truncated (store : List Summary) (fname decoded : List Char) :
    (summarize_file store fname decoded).1 =
      store ++ [⟨fname, (substitute decoded).take 10000,
                 simple_summarize (substitute decoded)⟩] := rfl

/-- C6: every failure raised while executing a handler body is caught at the
endpoint boundary and rendered as an HTTP 500 response whose detail is the
failure's textual description; the body is run exactly once (the boundary
maps one body outcome to one response), so nothing is retried. -/
theorem handler_failures_become_500 (α β : Type) (render : β → Response α)
    (e : String) :
    endpointBoundary render (Except.error e) = Response.httpError 500 e := rfl

/-- C7: Question validation is purely structural — with at least two options
and a non-negative answer index, creation is accepted and persisted even
when the answer index is at least the number of options. -/
theorem question_no_cross_field_check (store : List Question) (q : String)
    (os : List String) (ai : Int) (tag : Option String)
    (h1 : 2 ≤ os.length) (h2 : 0 ≤ ai) (_h3 : (os.length : Int) ≤ ai) :
    Question.validate (some q) (some os) (some ai) tag = some ⟨q, os, ai, tag⟩ ∧
    create_question_endpoint store (some q) (some os) (some ai) tag =
      (store ++ [⟨q, os, ai, tag⟩], .ok (toString store.length)) := by
  have hv : Question.validate (some q) (some os) (some ai) tag =
      some ⟨q, os, ai, tag⟩ := by
    simp only [Question.validate]
    exact if_pos ⟨h1, h2⟩
  refine ⟨hv, ?_⟩
  unfold create_question_endpoint
  rw [hv]
  rfl

/-- Witness for C7: two options, answer index 7 (out of range), accepted. -/
theorem question_no_cross_field_check_witness :
    Question.validate (some "q") (some ["a", "b"]) (some 7) none =
      some ⟨"q", ["a", "b"], 7, none⟩ ∧
    create_question_endpoint [] (some "q") (some ["a", "b"]) (some 7) none =
      ([⟨"q", ["a", "b"], 7, none⟩], .ok "0") :=
  question_no_cross_field_check [] "q" ["a", "b"] 7 none (by decide) (by decide)
    (by decide)

/-- C8: the persisted summary is computed from the full substituted text
before truncation, so for the 10,001-character upload consisting of 10,000
letters `a` followed by `z`, the stored text is only the `a`s, while the
stored summary still contains the `z` that the text field lost. -/
theorem summary_from_untruncated_text :
    (∀ (store : List Summary) (fname decoded : List Char),
      (summarize_file store fname decoded).1 =
        store ++ [⟨fname, (substitute decoded).take 10000,
                    simple_summarize (substitute decoded)⟩] ∧
      (summarize_file store fname decoded).2 =
        .ok (toString store.length, simple_summarize (substitute decoded))) ∧
    ((summarize_file [] [] (List.replicate 10000 'a' ++ ['z'])).1 =
        [⟨[], List.replicate 10000 'a', (List.replicate 10000 'a' ++ ['z']) ++ ['.']⟩] ∧
      'z' ∈ (List.replicate 10000 'a' ++ ['z']) ++ ['.'] ∧
      'z' ∉ List.replicate 10000 'a') := by
  constructor
  · intro store fname decoded
    exact ⟨rfl, rfl⟩
  · set l := List.replicate 10000 'a' ++ ['z'] with hl
    have hmem : ∀ c ∈ l, c = 'a' ∨ c = 'z' := by
      intro c hc
      rw [hl, List.mem_append] at hc
      rcases hc with hc | hc
      · left
        exact List.eq_of_mem_replicate hc
      · right
        simpa using hc
    have hne : l ≠ [] := by
      intro h
      rw [hl] at h
      have h2 := congrArg List.length h
      simp only [List.length_append, List.length_replicate, List.length_nil,
        List.length_cons] at h2
      omega
    have hsp : ∀ c ∈ l, isPySpace c = false := by
      intro c hc
      rcases hmem c hc with h | h <;> rw [h] <;> decide
    have hdot : '.' ∉ l := by
      intro hc
      rcases hmem _ hc with h | h
      · exact (by decide : ('.' : Char) ≠ 'a') h
      · exact (by decide : ('.' : Char) ≠ 'z') h
    have hnl : '\n' ∉ l := by
      intro hc
      rcases hmem _ hc with h | h
      · exact (by decide : ('\n' : Char) ≠ 'a') h
      · exact (by decide : ('\n' : Char) ≠ 'z') h
    have hnotor : ¬ (l = [] ∨ pyStrip l = []) := by
      rintro (h1 | h2)
      · exact hne h1
      · rw [pyStrip_eq_self_of_all hsp] at h2
        exact hne h2
    have hsub : substitute l = l := by
      unfold substitute
      rw [if_neg hnotor]
    have hsum : simple_summarize l = l ++ ['.'] :=
      simple_summarize_of_plain hne hdot hnl hsp
    have htake : l.take 10000 = List.replicate 10000 'a' := by
      rw [hl]
      exact List.take_left' (List.length_replicate 10000 'a')
    have hz : 'z' ∈ l := by
      rw [hl]
      exact List.mem_append_right _ (by simp)
    refine ⟨?_, ?_, ?_⟩
    · have base : (summarize_file [] [] l).1 =
          [⟨[], (substitute l).take 10000, simple_summarize (substitute l)⟩] := rfl
      rw [base, hsub, hsum, htake]
    · exact List.mem_append_left _ hz
    · intro hc
      exact (by decide : ('z' : Char) ≠ 'a') (List.eq_of_mem_replicate hc)

/-- C9: a list request whose filter query parameter is the empty string
builds the empty filter (Python falsiness), so the query returns every
document in the collection, exactly as when no filter is supplied. -/
theorem empty_filter_param_returns_all (ns : List Note) (cs : List Flashcard)
    (qs : List Question) :
    list_notes ns (some "") = ns ∧ list_notes ns (some "") = list_notes ns none ∧
    list_flashcards cs (some "") = cs ∧
    list_flashcards cs (some "") = list_flashcards cs none ∧
    list_questions qs (some "") = qs ∧
    list_questions qs (some "") = list_questions qs none := by
  refine ⟨?_, rfl, ?_, rfl, ?_, rfl⟩ <;>
    simp [list_notes, list_flashcards, list_questions, get_documents]

/-- C10: the summarizer is idempotent — applying it to its own output,
including the "No content to summarize." fallback, returns that output
unchanged. -/
theorem simple_summarize_idempotent (t : List Char) :
    simple_summarize (simple_summarize t) = simple_summarize t := by
  cases h : sentencesOf t with
  | nil =>
    have h1 : simple_summarize t = defaultSummary := by
      rw [simple_summarize_eq, h, if_pos rfl]
    have hd : defaultSummary =
        pyJoin ['.', ' '] ["No content to summarize".toList] ++ ['.'] := by decide
    rw [h1, hd]
    exact summarize_fixedpoint_of_good _ (by decide) (by decide) (by decide)
  | cons a l =>
    have hne : sentencesOf t ≠ [] := by
      rw [h]
      exact List.cons_ne_nil a l
    have htk : (sentencesOf t).take 5 ≠ [] := by
      rw [h]
      simp
    have h1 : simple_summarize t =
        pyJoin ['.', ' '] ((sentencesOf t).take 5) ++ ['.'] := by
      rw [simple_summarize_eq, if_neg hne, if_neg htk]
    rw [h1]
    refine summarize_fixedpoint_of_good _ htk ?_ ?_
    · rw [List.length_take]
      exact Nat.min_le_left _ _
    · intro f hf
      exact good_of_mem_sentencesOf f (List.take_subset 5 _ hf)

end StudyToolkit


